import Mathlib

/-!
Verification of the MQTT packet-identifier pool
(`src/mqtt_packet_id_dispatcher.go`, package `packetids`).

The pool hands out unique 16-bit packet identifiers.  Its mutable state is
a high-water mark `maxIDReached`, a singly-linked free stack of released
identifiers, and an intrusive doubly-linked wait list of blocked `Reserve`
calls, all guarded by one mutex.  We embed the state as a functional record
and the two operations as Lean functions; all state changes in the Go code
happen atomically under the single lock, so an interleaved execution is a
sequence of these atomic transitions.

The wait list is modelled as a Lean list of waiter tokens (head = list
head).  In the Go code a waiter node is pushed at the head (lines 96-106),
`Release` pops the head and marks it done (lines 141-146), and a done waiter
later unlinks itself and decrements `waitListSize` (lines 117-128).  A `done`
waiter has already been detached from the head by `Release`, and its stale
`previous` pointer can only reference nodes that were served before it, so
the self-unlink never rewrites a live node's `next` link: the list reachable
from `p.waitList` behaves exactly as head-push / head-pop, which is what the
list model captures.  A waiter that is done but whose goroutine has not yet
resumed is kept in the `fulfilled` field together with its assigned value;
the resume step (the code after the wait loop) removes it and decrements
`waitListSize`, exactly as lines 117-128 do.
-/

/-- `var MaxSimultaneousRequest uint16 = math.MaxUint16` (line 16). -/
def MaxSimultaneousRequest : Nat := 65535

/-- Modelled from the spec: the helper module `../modules/helpers/bytes`
imported by the Go file is not in `src/`.  `Split16BitWord` encodes a
16-bit value into 2 bytes, most-significant byte first. -/
def Split16BitWord (v : Nat) : Nat × Nat :=
  (v / 256 % 256, v % 256)

/-- Modelled from the spec: the helper module `../modules/helpers/bytes`
imported by the Go file is not in `src/`.  `CombineTwoBytes` decodes 2
bytes (most-significant byte first) back into the 16-bit value. -/
def CombineTwoBytes (b : Nat × Nat) : Nat :=
  b.1 % 256 * 256 + b.2 % 256

/-- `type PacketID struct { Value uint16 }` (lines 40-42). -/
structure PacketID where
  Value : Nat
deriving DecidableEq, Repr

/-- `func (o *PacketID) GetBytes() [2]byte` (lines 44-46). -/
def PacketID.GetBytes (o : PacketID) : Nat × Nat :=
  Split16BitWord o.Value

/-- `func NewPacketIDFromBytes(packetIDBytes [2]byte) *PacketID` (lines 53-55). -/
def NewPacketIDFromBytes (packetIDBytes : Nat × Nat) : PacketID :=
  { Value := CombineTwoBytes packetIDBytes }

/-- `func NewPacketID(value uint16) *PacketID` (lines 57-59). -/
def NewPacketID (value : Nat) : PacketID :=
  { Value := value }

/-- The mutable state of `type PacketIDs struct` (lines 30-38).  The mutex
and condition variable carry no data and are omitted; `stack` is the free
stack with the head as top of stack; `waitList` is the list of parked
waiter tokens with the head as queue head; `fulfilled` holds the waiters
whose `done` flag is set but whose goroutine has not yet resumed, paired
with their assigned `value`. -/
structure PacketIDs where
  maxIDReached : Nat
  stack : List Nat
  stackSize : Int
  waitList : List Nat
  waitListSize : Int
  fulfilled : List (Nat × Nat)
deriving DecidableEq, Repr

/-- `func New() *PacketIDs` (lines 61-72): zero-valued state. -/
def New : PacketIDs :=
  { maxIDReached := 0, stack := [], stackSize := 0
    waitList := [], waitListSize := 0, fulfilled := [] }

/-- Outcome of the atomic part of `Reserve` run under the lock:
either an identifier is returned at once (stack pop, lines 81-86, or fresh
mint, lines 90-93), or the call parks a waiter `w` at the head of the wait
list and blocks (lines 96-114). -/
inductive ReserveResult where
  | got (id : Nat) (p : PacketIDs)
  | blocked (p : PacketIDs)
deriving DecidableEq, Repr

/-- `func (p *PacketIDs) Reserve() *PacketID` (lines 74-129), up to the
point where the call either returns or blocks.  `w` is the token of the
waiter node the call would create.  Lines 97-106 push the new waiter at the
head of the wait list in both branches and increment `waitListSize`. -/
def Reserve (w : Nat) (p : PacketIDs) : ReserveResult :=
  match p.stack with
  | id :: rest =>
      ReserveResult.got id
        { p with stack := rest, stackSize := p.stackSize - 1 }
  | [] =>
      if p.maxIDReached < MaxSimultaneousRequest then
        ReserveResult.got (p.maxIDReached + 1)
          { p with maxIDReached := p.maxIDReached + 1 }
      else
        ReserveResult.blocked
          { p with waitList := w :: p.waitList
                   waitListSize := p.waitListSize + 1 }

/-- The tail of `Reserve` after the wait loop (lines 117-128): the
fulfilled waiter `w` (assigned value `v`) unlinks itself and decrements
`waitListSize`, then returns `v`. -/
def resumeWaiter (p : PacketIDs) (w v : Nat) : PacketIDs :=
  { p with fulfilled := @List.erase _ instBEqOfDecidableEq p.fulfilled (w, v)
           waitListSize := p.waitListSize - 1 }

/-- The body of `func (p *PacketIDs) Release(packetIDBytes [2]byte)`
(lines 131-154) applied to the already-decoded identifier: if the wait
list is non-empty, pop the head waiter, assign it the value and mark it
done (lines 141-146); otherwise push the value on the free stack
(lines 148-152).  `Release` does not touch `waitListSize`; the resumed
waiter decrements it (line 125). -/
def ReleaseValue (p : PacketIDs) (id : Nat) : PacketIDs :=
  match p.waitList with
  | w :: rest =>
      { p with waitList := rest, fulfilled := (w, id) :: p.fulfilled }
  | [] =>
      { p with stack := id :: p.stack, stackSize := p.stackSize + 1 }

/-- `Release` as in the source: decode the two wire bytes (line 132),
then run the guarded body. -/
def Release (p : PacketIDs) (packetIDBytes : Nat × Nat) : PacketIDs :=
  ReleaseValue p (CombineTwoBytes packetIDBytes)

/-- `func (p *PacketIDs) GetStackSize() int64` (lines 156-158). -/
def GetStackSize (p : PacketIDs) : Int := p.stackSize

/-- `func (p *PacketIDs) GetWaitListSize() int64` (lines 160-162). -/
def GetWaitListSize (p : PacketIDs) : Int := p.waitListSize

/-! ## C8: wire codec round-trip -/

/-- C8: encoding a 16-bit identifier yields exactly 2 bytes, most-significant
byte first (high byte `v / 256`, low byte `v % 256`, both below 256), and for
every value `v < 65536` decoding the encoding returns `v` unchanged. -/
theorem C8_codec_round_trip (v : Nat) (hv : v < 65536) :
    (PacketID.GetBytes { Value := v }).1 = v / 256 ∧
    (PacketID.GetBytes { Value := v }).2 = v % 256 ∧
    (PacketID.GetBytes { Value := v }).1 < 256 ∧
    (PacketID.GetBytes { Value := v }).2 < 256 ∧
    (NewPacketIDFromBytes (PacketID.GetBytes { Value := v })).Value = v := by
  dsimp only [PacketID.GetBytes, NewPacketIDFromBytes, Split16BitWord,
    CombineTwoBytes]
  omega

/-- C8 witness: the round trip at the concrete value 4660 (0x1234). -/
theorem C8_codec_round_trip_witness :
    (PacketID.GetBytes { Value := 4660 }).1 = 4660 / 256 ∧
    (PacketID.GetBytes { Value := 4660 }).2 = 4660 % 256 ∧
    (PacketID.GetBytes { Value := 4660 }).1 < 256 ∧
    (PacketID.GetBytes { Value := 4660 }).2 < 256 ∧
    (NewPacketIDFromBytes (PacketID.GetBytes { Value := 4660 })).Value = 4660 :=
  C8_codec_round_trip 4660 (by decide)

/-! ## C4: LIFO reuse from the free stack -/

/-- C4: whenever the free stack is non-empty, `Reserve` pops and returns the
top value; and concretely, from a fresh pool, `Reserve` returns 1, `Reserve`
returns 2, `Release` of the wire form of 1 (with no waiters) pushes 1, and
the next `Reserve` returns 1 again. -/
theorem C4_lifo_reuse (w v : Nat) (p : PacketIDs) (rest : List Nat)
    (h : p.stack = v :: rest) :
    Reserve w p =
      ReserveResult.got v
        { p with stack := rest, stackSize := p.stackSize - 1 } ∧
    ∃ p1 p2 p3,
      Reserve 0 New = ReserveResult.got 1 p1 ∧
      Reserve 0 p1 = ReserveResult.got 2 p2 ∧
      Release p2 (0, 1) = p3 ∧
      p3.waitList = [] ∧ p3.stack = [1] ∧
      (∃ p4, Reserve 0 p3 = ReserveResult.got 1 p4) := by
  constructor
  · simp only [Reserve, h]
  · exact ⟨_, _, _, rfl, rfl, rfl, rfl, rfl, _, rfl⟩

/-- C4 witness: the pop-the-top fact applied to a concrete pool whose free
stack holds 7 above 3. -/
theorem C4_lifo_reuse_witness :
    Reserve 0 { maxIDReached := 9, stack := [7, 3], stackSize := 2
                waitList := [], waitListSize := 0, fulfilled := [] } =
      ReserveResult.got 7
        { maxIDReached := 9, stack := [3], stackSize := 1
          waitList := [], waitListSize := 0, fulfilled := [] } :=
  (C4_lifo_reuse 0 7
    { maxIDReached := 9, stack := [7, 3], stackSize := 2
      waitList := [], waitListSize := 0, fulfilled := [] } [3] rfl).1

/-! ## C6: Release is total and loses nothing -/

/-- C6: for every pool state and every 2-byte input, `Release` is a total
function (no error, no rejection, no blocking — it is defined on all inputs,
including values never reserved or already released) and delivers the decoded
value to exactly one destination: the head waiter when the wait list is
non-empty, otherwise the top of the free stack. -/
theorem C6_release_total (p : PacketIDs) (b : Nat × Nat) :
    (p.waitList = [] →
      Release p b =
        { p with stack := CombineTwoBytes b :: p.stack
                 stackSize := p.stackSize + 1 }) ∧
    (∀ w rest, p.waitList = w :: rest →
      Release p b =
        { p with waitList := rest
                 fulfilled := (w, CombineTwoBytes b) :: p.fulfilled }) := by
  constructor
  · intro h
    simp only [Release, ReleaseValue, h]
  · intro w rest h
    simp only [Release, ReleaseValue, h]

/-- C6 witness: releasing the bytes (1, 4) — value 260, never reserved — on a
fresh pool pushes 260 on the free stack; releasing it on a pool with parked
waiter 5 fulfils that waiter with 260. -/
theorem C6_release_total_witness :
    Release New (1, 4) =
      { maxIDReached := 0, stack := [260], stackSize := 1
        waitList := [], waitListSize := 0, fulfilled := [] } ∧
    Release { maxIDReached := 65535, stack := [], stackSize := 0
              waitList := [5], waitListSize := 1, fulfilled := [] } (1, 4) =
      { maxIDReached := 65535, stack := [], stackSize := 0
        waitList := [], waitListSize := 1, fulfilled := [(5, 260)] } :=
  ⟨(C6_release_total New (1, 4)).1 rfl,
   (C6_release_total
      { maxIDReached := 65535, stack := [], stackSize := 0
        waitList := [5], waitListSize := 1, fulfilled := [] } (1, 4)).2
      5 [] rfl⟩

/-! ## C10: frame conditions -/

/-- C10: `Release` never changes `maxIDReached`; a `Reserve` served from a
non-empty free stack changes neither `maxIDReached` nor the wait list (nor
`waitListSize` nor the fulfilled set); and a blocked `Reserve` also leaves
`maxIDReached` unchanged — the high-water mark moves only on the fresh-mint
path of `Reserve`. -/
theorem C10_frame (p : PacketIDs) (b : Nat × Nat) (w : Nat) :
    (Release p b).maxIDReached = p.maxIDReached ∧
    (∀ v rest, p.stack = v :: rest →
      Reserve w p =
        ReserveResult.got v
          { p with stack := rest, stackSize := p.stackSize - 1 } ∧
      ∀ id p', Reserve w p = ReserveResult.got id p' →
        p'.maxIDReached = p.maxIDReached ∧ p'.waitList = p.waitList ∧
        p'.waitListSize = p.waitListSize ∧ p'.fulfilled = p.fulfilled) ∧
    (∀ p', Reserve w p = ReserveResult.blocked p' →
      p'.maxIDReached = p.maxIDReached) := by
  refine ⟨?_, ?_, ?_⟩
  · cases h : p.waitList with
    | nil => simp only [Release, ReleaseValue, h]
    | cons w rest => simp only [Release, ReleaseValue, h]
  · intro v rest h
    have hres : Reserve w p =
        ReserveResult.got v
          { p with stack := rest, stackSize := p.stackSize - 1 } := by
      simp only [Reserve, h]
    refine ⟨hres, ?_⟩
    intro id p' h'
    rw [hres] at h'
    cases h'
    exact ⟨rfl, rfl, rfl, rfl⟩
  · intro p' h'
    unfold Reserve at h'
    cases hs : p.stack with
    | nil =>
        rw [hs] at h'
        by_cases hm : p.maxIDReached < MaxSimultaneousRequest
        · rw [if_pos hm] at h'
          cases h'
        · rw [if_neg hm] at h'
          cases h'
          rfl
    | cons v rest =>
        rw [hs] at h'
        cases h'

/-- C10 witness: the frame facts at a concrete pool with free stack [7] and
a saturated pool that blocks. -/
theorem C10_frame_witness :
    (Release { maxIDReached := 9, stack := [7], stackSize := 1
               waitList := [], waitListSize := 0, fulfilled := [] }
        (0, 2)).maxIDReached = 9 ∧
    Reserve 0 { maxIDReached := 9, stack := [7], stackSize := 1
                waitList := [], waitListSize := 0, fulfilled := [] } =
      ReserveResult.got 7
        { maxIDReached := 9, stack := [], stackSize := 0
          waitList := [], waitListSize := 0, fulfilled := [] } ∧
    ∀ p', Reserve 3 { maxIDReached := 65535, stack := [], stackSize := 0
                      waitList := [], waitListSize := 0, fulfilled := [] } =
        ReserveResult.blocked p' → p'.maxIDReached = 65535 :=
  ⟨(C10_frame { maxIDReached := 9, stack := [7], stackSize := 1
                waitList := [], waitListSize := 0, fulfilled := [] }
      (0, 2) 0).1,
   ((C10_frame { maxIDReached := 9, stack := [7], stackSize := 1
                 waitList := [], waitListSize := 0, fulfilled := [] }
      (0, 2) 0).2.1 7 [] rfl).1,
   (C10_frame { maxIDReached := 65535, stack := [], stackSize := 0
                waitList := [], waitListSize := 0, fulfilled := [] }
      (0, 2) 3).2.2⟩

/-! ## C2: waiter service order is LIFO -/

/-- C2: a blocked `Reserve` inserts its waiter at the head of the wait list,
and `Release` serves the head waiter with exactly the released value: if R1
blocks and then R2 blocks (free stack empty, high-water mark saturated), one
release fulfils R2 — the most recently blocked — with the released value,
while R1 stays in the wait list unfulfilled. -/
theorem C2_waiter_service_lifo (p : PacketIDs) (r1 r2 v : Nat)
    (hs : p.stack = [])
    (hm : ¬ p.maxIDReached < MaxSimultaneousRequest)
    (hne : r1 ≠ r2)
    (hr1 : r1 ∉ p.fulfilled.map Prod.fst) :
    ∃ p1 p2,
      Reserve r1 p = ReserveResult.blocked p1 ∧
      p1.waitList = r1 :: p.waitList ∧
      Reserve r2 p1 = ReserveResult.blocked p2 ∧
      p2.waitList = r2 :: r1 :: p.waitList ∧
      (ReleaseValue p2 v).fulfilled = (r2, v) :: p.fulfilled ∧
      (ReleaseValue p2 v).waitList = r1 :: p.waitList ∧
      r1 ∈ (ReleaseValue p2 v).waitList ∧
      r1 ∉ (ReleaseValue p2 v).fulfilled.map Prod.fst := by
  have h1 : Reserve r1 p = ReserveResult.blocked
      { p with waitList := r1 :: p.waitList
               waitListSize := p.waitListSize + 1 } := by
    simp only [Reserve, hs]
    rw [if_neg hm]
  have h2 : Reserve r2
      { p with waitList := r1 :: p.waitList
               waitListSize := p.waitListSize + 1 } =
      ReserveResult.blocked
        { p with waitList := r2 :: r1 :: p.waitList
                 waitListSize := p.waitListSize + 1 + 1 } := by
    simp only [Reserve, hs]
    rw [if_neg hm]
  refine ⟨_, _, h1, rfl, h2, rfl, ?_, ?_, ?_, ?_⟩
  · simp only [ReleaseValue]
  · simp only [ReleaseValue]
  · simp only [ReleaseValue]
    exact List.mem_cons_self r1 p.waitList
  · simp only [ReleaseValue, List.map_cons, List.mem_cons]
    intro hmem
    rcases hmem with h | h
    · exact hne h
    · exact hr1 h

/-- C2 witness: the LIFO service scenario on the concrete saturated pool. -/
theorem C2_waiter_service_lifo_witness :
    ∃ p1 p2,
      Reserve 1 { maxIDReached := 65535, stack := [], stackSize := 0
                  waitList := [], waitListSize := 0, fulfilled := [] } =
        ReserveResult.blocked p1 ∧
      p1.waitList = [1] ∧
      Reserve 2 p1 = ReserveResult.blocked p2 ∧
      p2.waitList = [2, 1] ∧
      (ReleaseValue p2 7).fulfilled = [(2, 7)] ∧
      (ReleaseValue p2 7).waitList = [1] ∧
      1 ∈ (ReleaseValue p2 7).waitList ∧
      1 ∉ (ReleaseValue p2 7).fulfilled.map Prod.fst :=
  C2_waiter_service_lifo
    { maxIDReached := 65535, stack := [], stackSize := 0
      waitList := [], waitListSize := 0, fulfilled := [] }
    1 2 7 rfl (by decide) (by decide) (by decide)

/-! ## C3: monotonic minting -/

/-- Iterate the atomic part of `Reserve` `n` times, collecting the returned
identifiers in call order; stop if a call blocks. -/
def reserveSeq : Nat → PacketIDs → List Nat × PacketIDs
  | 0, p => ([], p)
  | n + 1, p =>
    match Reserve 0 p with
    | ReserveResult.got id p1 =>
        let r := reserveSeq n p1
        (id :: r.1, r.2)
    | ReserveResult.blocked p1 => ([], p1)

/-- With an empty free stack and room below the cap, `n` successive reserves
mint the next `n` values in increasing order and only move the high-water
mark. -/
theorem reserveSeq_mint_run (n : Nat) :
    ∀ p : PacketIDs, p.stack = [] →
      p.maxIDReached + n ≤ MaxSimultaneousRequest →
      reserveSeq n p =
        (List.range' (p.maxIDReached + 1) n,
         { p with maxIDReached := p.maxIDReached + n }) := by
  induction n with
  | zero =>
      intro p hs hcap
      simp only [reserveSeq, List.range'_zero, Nat.add_zero]
  | succ n ih =>
      intro p hs hcap
      have hm : p.maxIDReached < MaxSimultaneousRequest := by
        omega
      have hstep : Reserve 0 p = ReserveResult.got (p.maxIDReached + 1)
          { p with maxIDReached := p.maxIDReached + 1 } := by
        simp only [Reserve, hs]
        rw [if_pos hm]
      have hrec := ih { p with maxIDReached := p.maxIDReached + 1 } hs
        (by dsimp only; omega)
      have hadd : p.maxIDReached + 1 + n = p.maxIDReached + (n + 1) := by
        omega
      simp only [reserveSeq, hstep, hrec, List.range'_succ, hadd]

/-- C3: on a fresh pool with zero releases, each `Reserve` with an empty
free stack and `maxIDReached` below 65535 increments the high-water mark and
returns the new value; hence the first 65535 calls return exactly the list
`[1, 2, ..., 65535]` (each value once, in increasing order), and the 65536th
call blocks as a waiter instead of returning. -/
theorem C3_monotonic_minting :
    (∀ (w : Nat) (p : PacketIDs), p.stack = [] →
      p.maxIDReached < MaxSimultaneousRequest →
      Reserve w p = ReserveResult.got (p.maxIDReached + 1)
        { p with maxIDReached := p.maxIDReached + 1 }) ∧
    (reserveSeq MaxSimultaneousRequest New).1 =
      List.range' 1 MaxSimultaneousRequest ∧
    (∃ q, Reserve 0 (reserveSeq MaxSimultaneousRequest New).2 =
      ReserveResult.blocked q ∧ q.waitList = [0]) := by
  have hrun := reserveSeq_mint_run MaxSimultaneousRequest New rfl
    (by simp [New])
  refine ⟨?_, ?_, ?_⟩
  · intro w p hs hm
    simp only [Reserve, hs]
    rw [if_pos hm]
  · rw [hrun]
    simp [New]
  · rw [hrun]
    exact ⟨{ maxIDReached := 65535, stack := [], stackSize := 0
             waitList := [0], waitListSize := 1, fulfilled := [] },
           by decide, rfl⟩

/-- C3 witness: the per-call mint fact applied to the fresh pool: the first
reserve returns 1. -/
theorem C3_monotonic_minting_witness :
    Reserve 0 New = ReserveResult.got 1 { New with maxIDReached := 1 } :=
  C3_monotonic_minting.1 0 New rfl (by decide)

/-! ## Transition system

All mutation of the pool happens in atomic sections under the single mutex:
the fast path of `Reserve` (lines 77-106), the wait-loop exit of a fulfilled
waiter (lines 112-128, rechecked under the lock), and the whole of `Release`
(lines 134-153).  An interleaved concurrent execution is therefore a
sequence of these atomic transitions. -/

/-- One atomic pool transition, with no constraint on the released bytes
(misuse included: values never reserved, or released twice). -/
inductive PStep : PacketIDs → PacketIDs → Prop where
  | reserveGot (p : PacketIDs) (w id : Nat) (p' : PacketIDs) :
      Reserve w p = ReserveResult.got id p' → PStep p p'
  | reserveBlocked (p : PacketIDs) (w : Nat) (p' : PacketIDs) :
      Reserve w p = ReserveResult.blocked p' → PStep p p'
  | releaseStep (p : PacketIDs) (b : Nat × Nat) : PStep p (Release p b)
  | resumeStep (p : PacketIDs) (w v : Nat) :
      (w, v) ∈ p.fulfilled → PStep p (resumeWaiter p w v)

/-- Pool states reachable from `q` by any sequence of atomic transitions. -/
def PReach (p q : PacketIDs) : Prop := Relation.ReflTransGen PStep p q

/-- The free stack and the wait list are never simultaneously non-empty;
one atomic transition preserves this. -/
theorem pstep_mutual_exclusion (p q : PacketIDs) (h : PStep p q)
    (hp : p.stack = [] ∨ p.waitList = []) :
    q.stack = [] ∨ q.waitList = [] := by
  cases h with
  | reserveGot w id p' heq =>
      unfold Reserve at heq
      cases hs : p.stack with
      | nil =>
          rw [hs] at heq
          by_cases hm : p.maxIDReached < MaxSimultaneousRequest
          · rw [if_pos hm] at heq
            cases heq
            exact Or.inl rfl
          · rw [if_neg hm] at heq
            cases heq
      | cons v rest =>
          rw [hs] at heq
          cases heq
          rcases hp with hh | hh
          · rw [hs] at hh
            cases hh
          · exact Or.inr hh
  | reserveBlocked w p' heq =>
      unfold Reserve at heq
      cases hs : p.stack with
      | nil =>
          rw [hs] at heq
          by_cases hm : p.maxIDReached < MaxSimultaneousRequest
          · rw [if_pos hm] at heq
            cases heq
          · rw [if_neg hm] at heq
            cases heq
            exact Or.inl rfl
      | cons v rest =>
          rw [hs] at heq
          cases heq
  | releaseStep b =>
      unfold Release ReleaseValue
      cases hw : p.waitList with
      | nil =>
          exact Or.inr rfl
      | cons w rest =>
          rcases hp with hh | hh
          · exact Or.inl hh
          · rw [hw] at hh
            cases hh
  | resumeStep w v hmem =>
      exact hp

/-- C5: in every pool state reachable from the fresh pool, the free stack
and the wait list are never simultaneously non-empty: a waiter is created
only when the free stack is empty (and the high-water mark saturated), and
`Release` grows the free stack only when the wait list is empty. -/
theorem C5_mutual_exclusion (p : PacketIDs) (h : PReach New p) :
    p.stack = [] ∨ p.waitList = [] := by
  induction h with
  | refl => exact Or.inl rfl
  | tail hsteps hstep ih => exact pstep_mutual_exclusion _ _ hstep ih

/-- C5 witness: the invariant at the state reached from the fresh pool by
one reserve and one release of never-reserved bytes. -/
theorem C5_mutual_exclusion_witness :
    ({ maxIDReached := 1, stack := [260], stackSize := 1
       waitList := [], waitListSize := 0, fulfilled := [] } :
        PacketIDs).stack = [] ∨
    ({ maxIDReached := 1, stack := [260], stackSize := 1
       waitList := [], waitListSize := 0, fulfilled := [] } :
        PacketIDs).waitList = [] :=
  C5_mutual_exclusion _
    (Relation.ReflTransGen.tail
      (Relation.ReflTransGen.tail Relation.ReflTransGen.refl
        (PStep.reserveGot New 0 1 { New with maxIDReached := 1 } rfl))
      (PStep.releaseStep { New with maxIDReached := 1 } (1, 4)))

/-- A configuration: the pool state plus the ghost multiset (as a list) of
identifiers currently held by callers — returned by a `Reserve` call and not
yet released. -/
structure Config where
  pool : PacketIDs
  outstanding : List Nat
deriving DecidableEq, Repr

/-- One atomic transition of the pool together with well-behaved callers:
a caller releases only a value it currently holds, and releasing removes
exactly one held occurrence (release-at-most-once).  A resumed waiter
starts holding its assigned value. -/
inductive Step : Config → Config → Prop where
  | reserveGot (c : Config) (w id : Nat) (p' : PacketIDs) :
      Reserve w c.pool = ReserveResult.got id p' →
      Step c ⟨p', id :: c.outstanding⟩
  | reserveBlocked (c : Config) (w : Nat) (p' : PacketIDs) :
      Reserve w c.pool = ReserveResult.blocked p' →
      Step c ⟨p', c.outstanding⟩
  | releaseStep (c : Config) (b : Nat × Nat) :
      CombineTwoBytes b ∈ c.outstanding →
      Step c ⟨Release c.pool b, c.outstanding.erase (CombineTwoBytes b)⟩
  | resumeStep (c : Config) (w v : Nat) :
      (w, v) ∈ c.pool.fulfilled →
      Step c ⟨resumeWaiter c.pool w v, v :: c.outstanding⟩

/-- Configurations reachable by interleaved well-behaved calls. -/
def Reach (c d : Config) : Prop := Relation.ReflTransGen Step c d

/-- The fresh pool with no caller holding anything. -/
def initConfig : Config := ⟨New, []⟩

/-- Every identifier value in circulation: held by a caller, on the free
stack, or assigned to a fulfilled waiter that has not yet resumed. -/
def allIds (c : Config) : List Nat :=
  c.outstanding ++ (c.pool.stack ++ c.pool.fulfilled.map Prod.snd)

/-- Each step either permutes the identifiers in circulation (keeping the
high-water mark), or freshly mints `maxIDReached + 1`. -/
theorem step_allIds (c d : Config) (h : Step c d) :
    (List.Perm (allIds d) (allIds c) ∧
      d.pool.maxIDReached = c.pool.maxIDReached) ∨
    (allIds d = (c.pool.maxIDReached + 1) :: allIds c ∧
      d.pool.maxIDReached = c.pool.maxIDReached + 1 ∧
      c.pool.maxIDReached < MaxSimultaneousRequest) := by
  cases h with
  | reserveGot w id p' heq =>
      unfold Reserve at heq
      cases hs : c.pool.stack with
      | nil =>
          rw [hs] at heq
          by_cases hm : c.pool.maxIDReached < MaxSimultaneousRequest
          · rw [if_pos hm] at heq
            cases heq
            refine Or.inr ⟨?_, rfl, hm⟩
            simp only [allIds, hs, List.cons_append, List.nil_append]
          · rw [if_neg hm] at heq
            cases heq
      | cons a rest =>
          rw [hs] at heq
          cases heq
          refine Or.inl ⟨?_, rfl⟩
          simp only [allIds, hs, List.cons_append]
          exact List.perm_middle.symm
  | reserveBlocked w p' heq =>
      unfold Reserve at heq
      cases hs : c.pool.stack with
      | nil =>
          rw [hs] at heq
          by_cases hm : c.pool.maxIDReached < MaxSimultaneousRequest
          · rw [if_pos hm] at heq
            cases heq
          · rw [if_neg hm] at heq
            cases heq
            refine Or.inl ⟨?_, rfl⟩
            simp only [allIds, hs]
            exact List.Perm.refl _
      | cons a rest =>
          rw [hs] at heq
          cases heq
  | releaseStep b hmem =>
      refine Or.inl ⟨?_, ?_⟩
      · have h1 : List.Perm (allIds c)
            (CombineTwoBytes b ::
              (c.outstanding.erase (CombineTwoBytes b) ++
                (c.pool.stack ++ c.pool.fulfilled.map Prod.snd))) := by
          simp only [allIds]
          exact List.Perm.append_right _ (List.perm_cons_erase hmem)
        unfold Release ReleaseValue
        cases hw : c.pool.waitList with
        | nil =>
            refine List.Perm.trans ?_ h1.symm
            simp only [allIds, List.cons_append]
            exact List.perm_middle
        | cons w rest =>
            refine List.Perm.trans ?_ h1.symm
            simp only [allIds, List.map_cons]
            exact List.Perm.trans
              (List.Perm.append_left _ List.perm_middle) List.perm_middle
      · unfold Release ReleaseValue
        cases hw : c.pool.waitList with
        | nil => rfl
        | cons w rest => rfl
  | resumeStep w v hmem =>
      refine Or.inl ⟨?_, rfl⟩
      have hmap : List.Perm (c.pool.fulfilled.map Prod.snd)
          (v :: (@List.erase _ instBEqOfDecidableEq
            c.pool.fulfilled (w, v)).map Prod.snd) := by
        simpa using (List.perm_cons_erase hmem).map Prod.snd
      have h1 : List.Perm (allIds c)
          (c.outstanding ++
            (c.pool.stack ++
              (v :: (@List.erase _ instBEqOfDecidableEq
                c.pool.fulfilled (w, v)).map Prod.snd))) := by
        simp only [allIds]
        exact List.Perm.append_left _ (List.Perm.append_left _ hmap)
      refine List.Perm.trans ?_ h1.symm
      simp only [allIds, resumeWaiter, List.cons_append]
      exact (List.Perm.trans
        (List.Perm.append_left _ List.perm_middle) List.perm_middle).symm

/-- The identifiers in circulation are pairwise distinct, all in
`[1, maxIDReached]`, and the high-water mark never exceeds 65535. -/
def PoolInv (c : Config) : Prop :=
  (allIds c).Nodup ∧
  (∀ v ∈ allIds c, 1 ≤ v ∧ v ≤ c.pool.maxIDReached) ∧
  c.pool.maxIDReached ≤ MaxSimultaneousRequest

/-- One well-behaved step preserves the circulation invariant. -/
theorem step_inv (c d : Config) (h : Step c d) (hc : PoolInv c) :
    PoolInv d := by
  obtain ⟨hnd, hbd, hmx⟩ := hc
  rcases step_allIds c d h with ⟨hperm, hmax⟩ | ⟨heq, hmax, hlt⟩
  · refine ⟨hperm.nodup_iff.mpr hnd, ?_, ?_⟩
    · intro v hv
      rw [hmax]
      exact hbd v (hperm.mem_iff.mp hv)
    · rw [hmax]
      exact hmx
  · refine ⟨?_, ?_, ?_⟩
    · rw [heq]
      refine List.nodup_cons.mpr ⟨?_, hnd⟩
      intro hmem
      have := hbd _ hmem
      omega
    · intro v hv
      rw [heq] at hv
      rw [hmax]
      rcases List.mem_cons.mp hv with rfl | hv
      · omega
      · have := hbd v hv
        omega
    · rw [hmax]
      omega

/-- Every reachable configuration satisfies the circulation invariant. -/
theorem reach_inv (c : Config) (h : Reach initConfig c) : PoolInv c := by
  induction h with
  | refl =>
      refine ⟨List.nodup_nil, ?_, ?_⟩
      · intro v hv
        simp only [allIds, initConfig, New, List.nil_append,
          List.map_nil] at hv
        cases hv
      · exact Nat.zero_le _
  | tail hsteps hstep ih => exact step_inv _ _ hstep ih

/-! ## C1: uniqueness of outstanding identifiers -/

/-- C1: for every interleaved sequence of `Reserve` and `Release` calls in
which callers release only values they currently hold and release each held
value at most once (the `Step` relation), no identifier is held by two
outstanding reservations at once: the list of simultaneously outstanding
identifiers has no duplicate. -/
theorem C1_uniqueness (c : Config) (h : Reach initConfig c) :
    c.outstanding.Nodup := by
  have hinv := reach_inv c h
  have hnd := hinv.1
  simp only [allIds] at hnd
  exact hnd.of_append_left

/-- C1 witness: uniqueness at the configuration reached from the fresh pool
by two reserves, where identifiers 1 and 2 are simultaneously outstanding. -/
theorem C1_uniqueness_witness :
    (Config.mk { New with maxIDReached := 2 } [2, 1]).outstanding.Nodup :=
  C1_uniqueness (Config.mk { New with maxIDReached := 2 } [2, 1])
    (Relation.ReflTransGen.tail
      (Relation.ReflTransGen.tail Relation.ReflTransGen.refl
        (Step.reserveGot initConfig 0 1 { New with maxIDReached := 1 } rfl))
      (Step.reserveGot (Config.mk { New with maxIDReached := 1 } [1]) 0 2
        { New with maxIDReached := 2 } rfl))

/-! ## C7: identifier range -/

/-- C7: in every reachable configuration, every identifier `Reserve` can
issue — immediately, or later through a fulfilled waiter — lies in
`[1, 65535]`; the value 0 is never issued. -/
theorem C7_identifier_range (c : Config) (h : Reach initConfig c) :
    (∀ (w id : Nat) (p' : PacketIDs),
      Reserve w c.pool = ReserveResult.got id p' →
      1 ≤ id ∧ id ≤ 65535) ∧
    (∀ (w v : Nat), (w, v) ∈ c.pool.fulfilled →
      1 ≤ v ∧ v ≤ 65535) := by
  obtain ⟨hnd, hbd, hmx⟩ := reach_inv c h
  unfold MaxSimultaneousRequest at hmx
  constructor
  · intro w id p' heq
    unfold Reserve at heq
    cases hs : c.pool.stack with
    | nil =>
        rw [hs] at heq
        by_cases hm : c.pool.maxIDReached < MaxSimultaneousRequest
        · rw [if_pos hm] at heq
          cases heq
          unfold MaxSimultaneousRequest at hm
          omega
        · rw [if_neg hm] at heq
          cases heq
    | cons a rest =>
        rw [hs] at heq
        cases heq
        have hmem : id ∈ allIds c := by
          simp only [allIds]
          refine List.mem_append.mpr (Or.inr (List.mem_append.mpr (Or.inl ?_)))
          rw [hs]
          exact List.mem_cons_self _ _
        have := hbd id hmem
        omega
  · intro w v hv
    have hmem : v ∈ allIds c := by
      simp only [allIds]
      refine List.mem_append.mpr (Or.inr (List.mem_append.mpr (Or.inr ?_)))
      exact List.mem_map.mpr ⟨(w, v), hv, rfl⟩
    have := hbd v hmem
    omega

/-- C7 witness: the range fact for the identifier 1 issued by the first
reserve on the fresh pool. -/
theorem C7_identifier_range_witness : 1 ≤ 1 ∧ 1 ≤ 65535 :=
  (C7_identifier_range initConfig Relation.ReflTransGen.refl).1 0 1
    { New with maxIDReached := 1 } rfl

/-! ## C9: lock discipline

To talk about the mutex at all, each operation is transcribed as the
sequence of events its body performs, in source order: acquiring the pool
mutex, releasing it, and each touch (read or write) of the pool's mutable
state — free stack, wait list, high-water mark, the two size counters, and
waiter-node fields. -/

/-- A primitive event of one operation's body. -/
inductive LockEvent where
  | acquire
  | unlock
  | access
deriving DecidableEq, Repr

/-- Starting from mutex-hold depth `d`, every `access` event in the trace
happens at positive depth. -/
def guardedFrom : Nat → List LockEvent → Bool
  | _, [] => true
  | d, LockEvent.acquire :: t => guardedFrom (d + 1) t
  | d, LockEvent.unlock :: t => guardedFrom (d - 1) t
  | d, LockEvent.access :: t => decide (0 < d) && guardedFrom d t

/-- Every state access in the trace occurs while holding the mutex. -/
def accessesGuarded (t : List LockEvent) : Bool := guardedFrom 0 t

/-- The wait loop `for !w.done { p.cond.Wait() }` (lines 112-114) with `n`
wakeups that find `done` still false: each iteration reads `w.done` under
the lock, then `cond.Wait` releases the mutex while parked and reacquires
it before returning; the final read of `w.done` exits the loop. -/
def condWaitEvents : Nat → List LockEvent
  | 0 => [LockEvent.access]
  | n + 1 => LockEvent.access :: LockEvent.unlock :: LockEvent.acquire ::
      condWaitEvents n

/-- The events of one `Reserve` call (lines 74-129): `mu.Lock` (line 77),
then either the stack-pop path (lines 81-85: read `stack`, read `stack.i`,
write `stack`, write `stackSize`), or a read of `stack` (line 81) followed
by either the mint path (lines 90-92: read and write `maxIDReached`, read
it for the result) or the waiter path (lines 90, 97-106: read
`maxIDReached`, read `waitList`, write the new head and `waitListSize`;
the wait loop with `waits` spurious wakeups; lines 118-128: fix the two
neighbour links, write `waitListSize`, read `w.value`); the deferred
`mu.Unlock` (line 78) ends every path. -/
def reserveEvents (stackNonEmpty canMint : Bool) (waits : Nat) :
    List LockEvent :=
  LockEvent.acquire ::
    (if stackNonEmpty then
      [LockEvent.access, LockEvent.access, LockEvent.access,
       LockEvent.access, LockEvent.unlock]
    else
      LockEvent.access ::
        (if canMint then
          [LockEvent.access, LockEvent.access, LockEvent.access,
           LockEvent.unlock]
        else
          LockEvent.access :: LockEvent.access :: LockEvent.access ::
            LockEvent.access ::
            (condWaitEvents waits ++
              [LockEvent.access, LockEvent.access, LockEvent.access,
               LockEvent.unlock])))

/-- The events of one `Release` call (lines 131-154): `mu.Lock` (line 134),
read `waitList` (line 141), then either serve the head waiter (lines
142-145: read `waitList.next`, write `waitList`, write `w.value`, write
`w.done`) or push on the stack (lines 150-151: write `stack`, write
`stackSize`); the deferred `mu.Unlock` (line 135) ends both paths. -/
def releaseEvents (waiterWaiting : Bool) : List LockEvent :=
  LockEvent.acquire :: LockEvent.access ::
    (if waiterWaiting then
      [LockEvent.access, LockEvent.access, LockEvent.access,
       LockEvent.access, LockEvent.unlock]
    else
      [LockEvent.access, LockEvent.access, LockEvent.unlock])

/-- The events of `GetStackSize` (lines 156-158): it returns `p.stackSize`
without touching the mutex. -/
def getStackSizeEvents : List LockEvent := [LockEvent.access]

/-- The events of `GetWaitListSize` (lines 160-162): it returns
`p.waitListSize` without touching the mutex. -/
def getWaitListSizeEvents : List LockEvent := [LockEvent.access]

/-- The wait loop neither accesses state unlocked nor changes the hold
depth: it can be cut out of a guardedness check at depth 1. -/
theorem guardedFrom_condWait (n : Nat) (rest : List LockEvent) :
    guardedFrom 1 (condWaitEvents n ++ rest) = guardedFrom 1 rest := by
  induction n with
  | zero => simp [condWaitEvents, guardedFrom]
  | succ n ih => simp [condWaitEvents, guardedFrom, ih]

/-- C9 counterexample: the claim that every read of the pool's mutable
state — including the diagnostic accessors — happens while holding the
mutex is false: `GetStackSize` and `GetWaitListSize` read their counters
with no lock around the access. -/
theorem C9_lock_discipline_counterexample :
    ¬ (accessesGuarded getStackSizeEvents = true ∧
       accessesGuarded getWaitListSizeEvents = true) := by
  decide

/-- C9 (amended): every read and write of the pool's mutable state by
`Reserve` (on every path, for every number of spurious wakeups) and by
`Release` (both paths) occurs while holding the pool's mutex; the
diagnostic accessors `GetStackSize` and `GetWaitListSize`, however, read
their counters without acquiring it. -/
theorem C9_lock_discipline (s c wb : Bool) (n : Nat) :
    accessesGuarded (reserveEvents s c n) = true ∧
    accessesGuarded (releaseEvents wb) = true ∧
    accessesGuarded getStackSizeEvents = false ∧
    accessesGuarded getWaitListSizeEvents = false := by
  refine ⟨?_, ?_, rfl, rfl⟩
  · cases s with
    | true =>
        simp [accessesGuarded, reserveEvents, guardedFrom]
    | false =>
        cases c with
        | true =>
            simp [accessesGuarded, reserveEvents, guardedFrom]
        | false =>
            simp [accessesGuarded, reserveEvents, guardedFrom,
              guardedFrom_condWait]
  · cases wb with
    | true => simp [accessesGuarded, releaseEvents, guardedFrom]
    | false => simp [accessesGuarded, releaseEvents, guardedFrom]
